import Mathlib

/-!
Verification development for the AutoFilm tree-synchronization engine
(`app/modules/alist2strm/alist2strm.py`, `app/modules/alist/v3/path.py`,
`app/modules/alist/v3/client.py`, `app/extensions/exts.py`).

The Python code is shallowly embedded: local filesystem paths are lists of
name components, strings are Lean strings manipulated through their
character lists (mirroring the exact Python `str` primitives used by the
source), fallible code returns `Except`, and the cooperative concurrency of
the run is modelled by an explicit schedule parameter plus a small labelled
step machine for the two semaphores.
-/

namespace AutoFilm

/-! String and path primitives.  Each definition mirrors one Python
primitive used by the source: `str.lower`, `str.split(sep)`,
`str.replace(old, "", 1)`, `str.rstrip("/")`, `str.startswith("/")`,
`s[1:]`, and the `pathlib` operations `/`, `.name`, `.parent`, `.suffix`,
`.with_suffix`. -/

/-- Local filesystem path, as the list of name components from the
filesystem root (`Path("/a/b")` is `["a", "b"]`). -/
abbrev LPath := List String

/-- Python `pathlib.Path.parent` on the component representation. -/
def parentOf (p : LPath) : LPath := p.dropLast

/-- Python `str.lower()` (ASCII case folding suffices for the extension
sets used by the source). -/
def pyLower (s : String) : String := String.mk (s.data.map Char.toLower)

/-- Helper for `splitOnChar`: accumulates the current piece (reversed). -/
def splitOnCharAux (c : Char) : List Char → List Char → List (List Char)
  | [], acc => [acc.reverse]
  | x :: xs, acc =>
      if x = c then acc.reverse :: splitOnCharAux c xs []
      else splitOnCharAux c xs (x :: acc)

/-- Python `str.split(c)` for a one-character separator. -/
def splitOnChar (c : Char) (s : String) : List String :=
  (splitOnCharAux c s.data []).map String.mk

/-- Removes the first occurrence of `pat` from the list, as Python
`s.replace(pat, "", 1)` does. -/
def removeFirstOcc (pat : List Char) : List Char → List Char
  | [] => []
  | x :: xs =>
      if pat.isPrefixOf (x :: xs) then (x :: xs).drop pat.length
      else x :: removeFirstOcc pat xs

/-- Python `s.replace(pat, "", 1)`. -/
def pyReplaceFirst (s pat : String) : String :=
  String.mk (removeFirstOcc pat.data s.data)

/-- Python `s.rstrip("/")`. -/
def rstripSlash (s : String) : String :=
  String.mk ((s.data.reverse.dropWhile (fun c => c = '/')).reverse)

/-- Python `s.startswith("/")`. -/
def headIsSlash (s : String) : Bool := s.data.head? == some '/'

/-- Python `s[1:]`. -/
def strTail (s : String) : String := String.mk s.data.tail

/-- Drops the first `n` characters of a string. -/
def strDropChars (s : String) (n : Nat) : String := String.mk (s.data.drop n)

/-- Components of a relative path string, with `pathlib`'s normalization of
empty components (`Path("a//b") = Path("a/b")`). -/
def splitSlash (s : String) : List String :=
  (splitOnChar '/' s).filter (fun x => x ≠ "")

/-- Python `Path(base) / rel`: a `rel` that starts with a separator
replaces `base` entirely, otherwise its components are appended. -/
def pathJoinRel (base : LPath) (rel : String) : LPath :=
  if headIsSlash rel then splitSlash rel else base ++ splitSlash rel

/-- Index of the last `'.'` in a character list, if any. -/
def lastDotIdx (l : List Char) : Option Nat :=
  ((l.enum.filter (fun x => x.2 == '.')).map Prod.fst).getLast?

/-- Python `pathlib` suffix of a file name: the part from the last dot on,
empty when the dot is the first or the last character. -/
def pyPathSuffix (n : String) : String :=
  match lastDotIdx n.data with
  | none => ""
  | some i => if 0 < i ∧ i + 1 < n.data.length then String.mk (n.data.drop i) else ""

/-- Python `Path.with_suffix(suf)`: replaces the `pathlib` suffix of the
last component (appending when there is none). -/
def pyWithSuffix (p : LPath) (suf : String) : LPath :=
  match p.getLast? with
  | none => p
  | some n =>
      let stem := String.mk (n.data.take (n.data.length - (pyPathSuffix n).data.length))
      p.dropLast ++ [stem ++ suf]

/-! Extension sets, from `app/extensions/exts.py`. -/

def VIDEO_EXTS : List String :=
  [".mp4", ".mkv", ".flv", ".avi", ".wmv", ".ts", ".rmvb", ".webm", ".mpg",
   ".mpeg", ".mov", ".m2ts", ".vob", ".3gp", ".ogv", ".divx", ".asf", ".m4v",
   ".mp3", ".aac", ".flac", ".wav", ".ogg", ".m4a", ".wma", ".ac3", ".opus",
   ".alac", ".mka"]

def SUBTITLE_EXTS : List String := [".ass", ".srt", ".ssa", ".sub", ".vtt", ".smi", ".idx"]

def IMAGE_EXTS : List String := [".png", ".jpg", ".jpeg", ".gif", ".bmp", ".tiff", ".webp"]

def NFO_EXTS : List String := [".nfo"]

/-! The `AlistPath` record, from `app/modules/alist/v3/path.py`. -/

/-- One remote listing entry (`AlistPath`), restricted to the fields the
synchronization engine reads. -/
structure AlistPath where
  server_url : String := ""
  base_path : String := ""
  file_path : String := ""
  name : String
  size : Nat := 0
  is_dir : Bool := false
  modified : String := ""
  sign : String := ""
  raw_url : String := ""
  full_path : String := ""
deriving DecidableEq, Repr

/-- Modelled from the spec: `URLUtils.encode` lives in `app/utils`, which is
not under `src/`; no claim inspects the encoded text of a URL, so encoding
is taken to be the identity. -/
def urlEncode (s : String) : String := s

/-- Property `AlistPath.abs_path`. -/
def AlistPath.abs_path (p : AlistPath) : String :=
  rstripSlash p.base_path ++ p.file_path

/-- Property `AlistPath.download_url`. -/
def AlistPath.download_url (p : AlistPath) : String :=
  if p.sign ≠ "" then
    urlEncode (p.server_url ++ "/d" ++ p.abs_path ++ "?sign=" ++ p.sign)
  else
    urlEncode (p.server_url ++ "/d" ++ p.abs_path)

/-- Property `AlistPath.suffix`: `"." + self.name.split(".")[-1]` for
files, `""` for directories. -/
def AlistPath.suffix (p : AlistPath) : String :=
  if p.is_dir then ""
  else String.mk ('.' :: (splitOnCharAux '.' p.name.data []).getLastD [])

/-! Timestamp parsing.  `AlistPath.modified_timestamp` calls
`datetime.fromisoformat`, which raises `ValueError` on strings that are not
ISO-8601 (in particular on the empty string). -/

def digitVal? (c : Char) : Option Nat :=
  if c.isDigit then some (c.toNat - 48) else none

def twoDigits? (a b : Char) : Option Nat := do
  let x ← digitVal? a
  let y ← digitVal? b
  pure (10 * x + y)

/-- Modelled from the spec: `datetime.fromisoformat` is Python standard
library code, not under `src/`.  It accepts `YYYY-MM-DD`, optionally
followed by `T` or a space and `HH:MM:SS`, and returns an order-preserving
encoding of the parsed instant; every other string (the empty string
included) yields `none`, standing for the `ValueError` the library raises. -/
def pyFromIso (s : String) : Option Int :=
  match s.data with
  | y1 :: y2 :: y3 :: y4 :: s1 :: m1 :: m2 :: s2 :: d1 :: d2 :: rest => do
      let a ← twoDigits? y1 y2
      let b ← twoDigits? y3 y4
      let m ← twoDigits? m1 m2
      let d ← twoDigits? d1 d2
      if s1 = '-' ∧ s2 = '-' ∧ 1 ≤ m ∧ m ≤ 12 ∧ 1 ≤ d ∧ d ≤ 31 then
        let day : Nat := ((a * 100 + b) * 13 + m) * 32 + d
        match rest with
        | [] => pure (Int.ofNat (day * 86400))
        | t :: h1 :: h2 :: c1 :: i1 :: i2 :: c2 :: e1 :: e2 :: [] => do
            let h ← twoDigits? h1 h2
            let i ← twoDigits? i1 i2
            let e ← twoDigits? e1 e2
            if (t = 'T' ∨ t = ' ') ∧ c1 = ':' ∧ c2 = ':' ∧ h ≤ 23 ∧ i ≤ 59 ∧ e ≤ 59 then
              pure (Int.ofNat (day * 86400 + h * 3600 + i * 60 + e))
            else none
        | _ => none
      else none
  | _ => none

/-- Decidable equality for `Except`, so that concrete runs of the embedded
code can be checked by `decide`. -/
instance exceptDecEq {ε α : Type} [DecidableEq ε] [DecidableEq α] :
    DecidableEq (Except ε α)
  | .error e, .error f =>
      if h : e = f then .isTrue (h ▸ rfl)
      else .isFalse (fun hc => h (Except.error.inj hc))
  | .error _, .ok _ => .isFalse Except.noConfusion
  | .ok _, .error _ => .isFalse Except.noConfusion
  | .ok x, .ok y =>
      if h : x = y then .isTrue (h ▸ rfl)
      else .isFalse (fun hc => h (Except.ok.inj hc))

/-- Python exception classes reachable from the embedded code paths. -/
inductive PyErr where
  | osError
  | valueError
  | requestError
  | attributeError
deriving DecidableEq, Repr

/-- Property `AlistPath.modified_timestamp`: parses `self.modified`,
raising `ValueError` when it is not ISO-8601. -/
def AlistPath.modifiedTimestamp (p : AlistPath) : Except PyErr Int :=
  match pyFromIso p.modified with
  | none => .error .valueError
  | some t => .ok t

/-! Local filesystem model.  Regular files and directories each carry a
stat record (`st_mtime`, `st_size`); existence, stat, deletion and
directory emptiness are the operations the source performs. -/

structure FileStat where
  st_mtime : Int := 0
  st_size : Nat := 0
deriving DecidableEq, Repr

structure FS where
  files : List (LPath × FileStat) := []
  dirs : List (LPath × FileStat) := []
deriving DecidableEq, Repr

def lookupStat (l : List (LPath × FileStat)) (p : LPath) : Option FileStat :=
  (l.find? (fun e => e.1 == p)).map Prod.snd

def fileExists (fs : FS) (p : LPath) : Bool := (lookupStat fs.files p).isSome

def dirExists (fs : FS) (p : LPath) : Bool := (lookupStat fs.dirs p).isSome

/-- Python `Path.exists()`. -/
def pathExists (fs : FS) (p : LPath) : Bool := fileExists fs p || dirExists fs p

/-- Python `Path.stat()` on an existing path (a default record for the
never-exercised corner where the path does not exist). -/
def fsStatD (fs : FS) (p : LPath) : FileStat :=
  match lookupStat fs.files p with
  | some st => st
  | none => (lookupStat fs.dirs p).getD {}

def removeFile (fs : FS) (p : LPath) : FS :=
  { fs with files := fs.files.filter (fun e => !(e.1 == p)) }

def removeDir (fs : FS) (d : LPath) : FS :=
  { fs with dirs := fs.dirs.filter (fun e => !(e.1 == d)) }

/-- Python `any(parent_dir.iterdir())`: the directory has at least one
child entry (file or directory). -/
def dirNonEmpty (fs : FS) (d : LPath) : Bool :=
  fs.files.any (fun e => parentOf e.1 == d && e.1 != d) ||
  fs.dirs.any (fun e => parentOf e.1 == d && e.1 != d)

/-! Run configuration, from `Alist2Strm.__init__`. -/

/-- The `Alist2Strm` configuration state established by `__init__`
(the fields the engine reads; the regex `sync_ignore` is modelled as an
abstract name predicate, the regex engine being standard library code). -/
structure Alist2Strm where
  mode : String := "AlistURL"
  source_dir : String := "/"
  target_dir : LPath := []
  flatten_mode : Bool := false
  overwrite : Bool := false
  sync_server : Bool := false
  download_exts : List String := []
  process_file_exts : List String := []
  max_workers : Nat := 50
  max_downloaders : Nat := 5
  sync_ignore : Option (String → Bool) := none

/-- The body of `Alist2Strm.__init__`: flatten mode forces the auxiliary
download flags off, the download set is the union of the selected category
sets plus the comma-separated lowercased `other_ext` entries, and the
processing set is the video set united with the download set. -/
def mkAlist2Strm (source_dir : String) (target_dir : LPath)
    (flatten_mode subtitle image nfo : Bool) (mode : String)
    (overwrite : Bool) (other_ext : String)
    (max_workers max_downloaders : Nat) (sync_server : Bool)
    (sync_ignore : Option (String → Bool)) : Alist2Strm :=
  let subtitle := if flatten_mode then false else subtitle
  let image := if flatten_mode then false else image
  let nfo := if flatten_mode then false else nfo
  let download_exts : List String :=
    (if subtitle then SUBTITLE_EXTS else []) ++
    (if image then IMAGE_EXTS else []) ++
    (if nfo then NFO_EXTS else []) ++
    (if other_ext ≠ "" then splitOnChar ',' (pyLower other_ext) else [])
  { mode := mode
    source_dir := source_dir
    target_dir := target_dir
    flatten_mode := flatten_mode
    overwrite := overwrite
    sync_server := sync_server
    download_exts := download_exts
    process_file_exts := VIDEO_EXTS ++ download_exts
    max_workers := max_workers
    max_downloaders := max_downloaders
    sync_ignore := sync_ignore }

/-- The method `Alist2Strm.__get_local_path`: flatten mode joins the target
root with the entry name; otherwise the first occurrence of `source_dir` is
removed from `full_path` (the entry name is used when `full_path` is
empty), one leading separator is stripped, and the remainder is joined to
the target root; a video-suffixed entry (checked case-insensitively) has
its suffix replaced by `.strm`. -/
def getLocalPath (cfg : Alist2Strm) (p : AlistPath) (fp : String) : LPath :=
  let base :=
    if cfg.flatten_mode then pathJoinRel cfg.target_dir p.name
    else
      let rel := if fp ≠ "" then pyReplaceFirst fp cfg.source_dir else p.name
      let rel := if headIsSlash rel then strTail rel else rel
      pathJoinRel cfg.target_dir rel
  if pyLower p.suffix ∈ VIDEO_EXTS then pyWithSuffix base ".strm" else base

/-! Traversal and processing pipeline: `AlistClient.iter_path` together
with the loop of `Alist2Strm.run` and the task body
`Alist2Strm.__file_processer`. -/

/-- A node of the remote tree.  `iter_path` recurses into the children
exactly when the entry's `is_dir` flag is set, so the children list is
carried by every node and ignored for files. -/
inductive REntry where
  | node (p : AlistPath) (children : List REntry)
deriving Repr

/-- Environment of the externally-determined outcomes: whether local-path
construction raises `OSError` (the "file name too long" case the filter
catches), whether a directory creation, pointer write or download fails,
and which object `async_api_fs_get` returns for a detail fetch. -/
structure Env where
  pathError : AlistPath → String → Bool := fun _ _ => false
  mkdirFails : LPath → Bool := fun _ => false
  writeFails : LPath → Bool := fun _ => false
  downloadFails : AlistPath → Bool := fun _ => false
  detail : String → AlistPath := fun fp => { name := fp, full_path := fp }

/-- Observable remote and filesystem actions of a run. -/
inductive Effect where
  | detailCall (fp : String)
  | mkdirDirs (d : LPath)
  | writeFile (lp : LPath) (content : String) (who : AlistPath)
  | download (url : String) (lp : LPath) (who : AlistPath)
deriving DecidableEq, Repr

/-- One task created by `tg.create_task(self.__file_processer(path))`:
the yielded object, the full remote path the filter just recorded, and the
index of the `self.full_path` value current at creation time. -/
structure Dispatch where
  p : AlistPath
  fp : String
  cIdx : Nat
deriving DecidableEq, Repr

/-- The mutable run state: `self.processed_local_paths`, the history of
values of the shared `self.full_path` field (the live value is the last
element; the field is unset while the history is empty), the effect log
and the tasks created so far. -/
structure TravState where
  processed : List LPath := []
  timeline : List String := []
  effects : List Effect := []
  dispatches : List Dispatch := []
deriving DecidableEq, Repr

/-- The staleness check of the filter, for an existing local file whose
remote suffix is in the download set: parse `modified` (a non-ISO string
raises `ValueError`), reprocess when the local file is older than the
remote timestamp or smaller than the remote size, skip otherwise. -/
def reprocessDecision (fs : FS) (lp : LPath) (p : AlistPath) : Except PyErr Bool :=
  let stat := fsStatD fs lp
  match p.modifiedTimestamp with
  | .error e => .error e
  | .ok mt =>
    if stat.st_mtime < mt then .ok true
    else if stat.st_size < p.size then .ok true
    else .ok false

/-- The inner function `filter` of `Alist2Strm.run`: directories and
unclassified suffixes are rejected; a path-construction `OSError` is caught
and rejects the entry; otherwise `self.full_path` is assigned and the local
path recorded, and with overwrite off and the local path existing, entries
whose exact suffix is in the download set go through the staleness check
(whose `ValueError` is not caught), while all other entries are skipped by
existence alone. -/
def filterStep (cfg : Alist2Strm) (env : Env) (fs : FS) (st : TravState)
    (p : AlistPath) (fp : String) : Except PyErr (Bool × TravState) :=
  if p.is_dir then .ok (false, st)
  else if pyLower p.suffix ∉ cfg.process_file_exts then .ok (false, st)
  else if env.pathError p fp then .ok (false, st)
  else
    let lp := getLocalPath cfg p fp
    let st1 : TravState :=
      { st with
        timeline := st.timeline ++ [fp]
        processed := if lp ∈ st.processed then st.processed else lp :: st.processed }
    if !cfg.overwrite && pathExists fs lp then
      if p.suffix ∈ cfg.download_exts then
        match reprocessDecision fs lp p with
        | .error e => .error e
        | .ok r => .ok (r, st1)
      else .ok (false, st1)
    else .ok (true, st1)

/-- The full path `iter_path` passes to the filter and recursion:
`f"{dir_path}/{path.name}"`, special-casing the root. -/
def childFullPath (dirPath name : String) : String :=
  if dirPath = "/" then "/" ++ name else dirPath ++ "/" ++ name

mutual

/-- The order in which `iter_path` reaches entries: within one listing the
entries are taken in order, a directory's subtree is exhausted before the
directory itself is filtered, and every entry (directories included) is
passed to the filter with its full path. -/
def visitOrder : List REntry → String → List (AlistPath × String)
  | [], _ => []
  | e :: rest, dirPath => visitEntry e dirPath ++ visitOrder rest dirPath

/-- One entry of `iter_path`: the subtree of a directory is traversed
first, then the entry itself reaches the filter. -/
def visitEntry : REntry → String → List (AlistPath × String)
  | REntry.node p children, dirPath =>
      let fp := childFullPath dirPath p.name
      (if p.is_dir then visitOrder children fp else []) ++ [(p, fp)]

end

/-- One step of the fused `iter_path`/`run` loop: the filter runs, and on
acceptance the detail object is fetched when `is_detail` is set (one
`detailCall` effect) and a task is created on the yielded object, noting
the current index of the shared `self.full_path` field. -/
def travStep (cfg : Alist2Strm) (env : Env) (fs : FS) (isDetail : Bool)
    (st : TravState) (pr : AlistPath × String) : Except PyErr TravState := do
  let (b, st1) ← filterStep cfg env fs st pr.1 pr.2
  if b then
    let y := if isDetail then env.detail pr.2 else pr.1
    pure { st1 with
      effects := st1.effects ++ (if isDetail then [Effect.detailCall pr.2] else [])
      dispatches := st1.dispatches ++ [⟨y, pr.2, st1.timeline.length - 1⟩] }
  else
    pure st1

/-- The mode normalization at the head of `Alist2Strm.run`: an unknown mode
string is replaced by `"AlistURL"` with a warning. -/
def normMode (m : String) : String :=
  if m ∈ ["AlistURL", "RawURL", "AlistPath"] then m else "AlistURL"

/-- The traversal half of `Alist2Strm.run`: the mode is normalized,
`processed_local_paths` starts empty, and the filter/dispatch step runs
over every entry in visit order; an uncaught exception anywhere stops the
loop and aborts the run. -/
def runTraverse (cfg : Alist2Strm) (env : Env) (fs : FS) (tree : List REntry) :
    Except PyErr TravState :=
  let isDetail := normMode cfg.mode == "RawURL"
  (visitOrder tree cfg.source_dir).foldlM
    (fun st pr => travStep cfg env fs isDetail st pr) {}

/-- The value a task reads from the shared `self.full_path` field when it
executes at point `k` of the timeline: at least the value current at its
creation (`cIdx`), at most the final value. -/
def taskRead (timeline : List String) (cIdx k : Nat) : Option String :=
  timeline.get? (min (max k cIdx) (timeline.length - 1))

/-- The task body `Alist2Strm.__file_processer`: reads `self.full_path`
(an unset field is an `AttributeError`), recomputes the local path (an
`OSError` here is not caught), resolves the content per mode — in
`AlistPath` mode the source reads `path.path`, an attribute the pydantic
`AlistPath` model does not have (it was renamed `file_path`), so that
branch always raises `AttributeError`; an unknown mode raises
`ValueError` — then ensures parent directories and either writes the
pointer file or downloads under the download semaphore.  No exception is
caught in this body. -/
def fileProcesser (cfg : Alist2Strm) (env : Env) (mode : String)
    (p : AlistPath) (sharedFp : Option String) : Except PyErr (List Effect) :=
  match sharedFp with
  | none => .error .attributeError
  | some fp =>
    if env.pathError p fp then .error .osError
    else
      let lp := getLocalPath cfg p fp
      let content? : Except PyErr String :=
        if mode = "AlistURL" then .ok p.download_url
        else if mode = "RawURL" then .ok p.raw_url
        else if mode = "AlistPath" then .error .attributeError
        else .error .valueError
      match content? with
      | .error e => .error e
      | .ok content =>
        if env.mkdirFails (parentOf lp) then .error .osError
        else if pyPathSuffix (lp.getLastD "") = ".strm" then
          if env.writeFails lp then .error .osError
          else .ok [Effect.mkdirDirs (parentOf lp), Effect.writeFile lp content p]
        else if env.downloadFails p then .error .requestError
        else .ok [Effect.mkdirDirs (parentOf lp), Effect.download p.download_url lp p]

/-- Executes the created tasks in order under schedule `σ` (task `i` reads
the shared field at point `σ i`); the task group propagates the first
failing task's exception as the run's error. -/
def runTasks (cfg : Alist2Strm) (env : Env) (mode : String)
    (timeline : List String) (σ : Nat → Nat) :
    List Dispatch → Nat → Except PyErr (List Effect)
  | [], _ => .ok []
  | d :: rest, i => do
      let effs ← fileProcesser cfg env mode d.p (taskRead timeline d.cIdx (σ i))
      let more ← runTasks cfg env mode timeline σ rest (i + 1)
      pure (effs ++ more)

/-- A whole run of `Alist2Strm.run` (traversal plus all created tasks)
under schedule `σ`: the run returns normally exactly when the traversal and
every task do. -/
def runWith (cfg : Alist2Strm) (env : Env) (fs : FS) (tree : List REntry)
    (σ : Nat → Nat) : Except PyErr (List Effect) := do
  let st ← runTraverse cfg env fs tree
  let teffs ← runTasks cfg env (normMode cfg.mode) st.timeline σ st.dispatches 0
  pure (st.effects ++ teffs)

/-- Local paths targeted by write/download effects. -/
def writesOf : List Effect → List LPath
  | [] => []
  | Effect.writeFile lp _ _ :: rest => lp :: writesOf rest
  | Effect.download _ lp _ :: rest => lp :: writesOf rest
  | _ :: rest => writesOf rest

/-! Semaphore machine.  `Alist2Strm.run` enters `async with
self.__max_workers` once around the whole traversal (one permit of the
worker semaphore for the whole run), creates tasks with no further permit,
and each non-pointer task brackets its download in `async with
self.__max_downloaders`.  The labelled steps below are exactly these code
points; pointer-file tasks never touch the download semaphore. -/

structure SemState where
  pending : Nat
  activeNoDl : Nat
  activeDl : Nat
  finished : Nat
  dlAvail : Nat
  wAvail : Nat
deriving DecidableEq, Repr

inductive SemAct where
  | spawn
  | acquireDl
  | finishDl
  | finishStrm
deriving DecidableEq, Repr

/-- One scheduler step: `spawn` starts a created task (no semaphore is
consulted), `acquireDl` enters the download semaphore (blocked when no
permit is available), `finishDl` leaves it, `finishStrm` completes a
pointer-file task without ever touching the download semaphore. -/
def semStep (s : SemState) : SemAct → Option SemState
  | .spawn =>
      if s.pending > 0 then
        some { s with pending := s.pending - 1, activeNoDl := s.activeNoDl + 1 }
      else none
  | .acquireDl =>
      if s.activeNoDl > 0 && s.dlAvail > 0 then
        some { s with activeNoDl := s.activeNoDl - 1, activeDl := s.activeDl + 1,
                      dlAvail := s.dlAvail - 1 }
      else none
  | .finishDl =>
      if s.activeDl > 0 then
        some { s with activeDl := s.activeDl - 1, finished := s.finished + 1,
                      dlAvail := s.dlAvail + 1 }
      else none
  | .finishStrm =>
      if s.activeNoDl > 0 then
        some { s with activeNoDl := s.activeNoDl - 1, finished := s.finished + 1 }
      else none

/-- Run start: `nTasks` tasks will be created, the download semaphore holds
`maxDownloaders` permits, and the worker semaphore has given one permit to
the run itself (`async with self.__max_workers` around the loop), leaving
`maxWorkers - 1` — tasks acquire none of them. -/
def semInit (nTasks maxWorkers maxDownloaders : Nat) : SemState :=
  ⟨nTasks, 0, 0, 0, maxDownloaders, maxWorkers - 1⟩

def semExec (s : SemState) : List SemAct → Option SemState
  | [] => some s
  | a :: rest =>
      match semStep s a with
      | none => none
      | some s2 => semExec s2 rest

/-- Tasks simultaneously in flight. -/
def inFlight (s : SemState) : Nat := s.activeNoDl + s.activeDl

/-! Reconciler, from `Alist2Strm.__cleanup_local_files`. -/

/-- The enumeration of local regular files: direct children of the target
directory in flatten mode (`iterdir`), all descendants otherwise
(`rglob`). -/
def allLocalFiles (cfg : Alist2Strm) (fs : FS) : List LPath :=
  if cfg.flatten_mode then
    (fs.files.map Prod.fst).filter (fun p => parentOf p == cfg.target_dir && p != cfg.target_dir)
  else
    (fs.files.map Prod.fst).filter (fun p => cfg.target_dir.isPrefixOf p && p != cfg.target_dir)

/-- Whether the filename matches the `sync_ignore` pattern. -/
def ignores (cfg : Alist2Strm) (p : LPath) : Bool :=
  match cfg.sync_ignore with
  | some ig => ig (p.getLastD "")
  | none => false

/-- Helper of `rmdirUpward`, walking on the reversed component list so the
move to the parent directory is structural. -/
def rmdirUpwardAux (root : LPath) : List String → FS → FS
  | [], fs => fs
  | x :: rs, fs =>
      let d := (x :: rs).reverse
      if d = root then fs
      else if dirNonEmpty fs d then fs
      else rmdirUpwardAux root rs (removeDir fs d)

/-- The upward walk after one deletion: while the current directory is not
the target root, stop at the first non-empty directory, otherwise remove it
and continue from its parent. -/
def rmdirUpward (root d : LPath) (fs : FS) : FS :=
  rmdirUpwardAux root d.reverse fs

/-- One iteration of the deletion loop: skip files matching the ignore
pattern, otherwise unlink the file if it still exists and prune its
newly-empty ancestors. -/
def deleteOne (cfg : Alist2Strm) (fs : FS) (fp : LPath) : FS :=
  if ignores cfg fp then fs
  else if fileExists fs fp then
    rmdirUpward cfg.target_dir (parentOf fp) (removeFile fs fp)
  else fs

/-- The method `Alist2Strm.__cleanup_local_files`: every enumerated local
file not in `processed_local_paths` is deleted in turn. -/
def cleanupLocalFiles (cfg : Alist2Strm) (fs : FS) (touched : List LPath) : FS :=
  let victims := (allLocalFiles cfg fs).filter (fun p => !(touched.contains p))
  victims.foldl (deleteOne cfg) fs

/-- The state `filterStep` installs when it reaches the recording point:
`self.full_path` assigned, the local path added to
`processed_local_paths`. -/
def recordState (cfg : Alist2Strm) (st : TravState) (p : AlistPath) (fp : String) :
    TravState :=
  { st with
    timeline := st.timeline ++ [fp]
    processed :=
      if getLocalPath cfg p fp ∈ st.processed then st.processed
      else getLocalPath cfg p fp :: st.processed }

/-- The task the loop appends on acceptance of `pr`. -/
def newDispatch (env : Env) (det : Bool) (st1 : TravState) (pr : AlistPath × String) :
    Dispatch :=
  ⟨if det then env.detail pr.2 else pr.1, pr.2, st1.timeline.length - 1⟩

/-- Invariant: every created task's creation index points, in the shared
field's history, at the full path the filter recorded for that entry. -/
def timelineInv (st : TravState) : Prop :=
  ∀ d ∈ st.dispatches, st.timeline.get? d.cIdx = some d.fp

/-- Invariant (non-detail modes): every created task's recorded local path
is in `processed_local_paths`. -/
def recInv (cfg : Alist2Strm) (st : TravState) : Prop :=
  ∀ d ∈ st.dispatches, getLocalPath cfg d.p d.fp ∈ st.processed

/-- Modelled from the spec (path-mapper contract) for comparison with
`getLocalPath`: flatten mode joins the target root and the entry name;
hierarchical mode strips the configured remote-root prefix from the full
remote path and then one leading separator; a media suffix (checked
case-insensitively) is replaced by the pointer extension. -/
def specMapPath (cfg : Alist2Strm) (p : AlistPath) (fp : String) : LPath :=
  let base :=
    if cfg.flatten_mode then pathJoinRel cfg.target_dir p.name
    else
      let rel := strDropChars fp cfg.source_dir.length
      let rel2 := if headIsSlash rel then strTail rel else rel
      pathJoinRel cfg.target_dir rel2
  if pyLower p.suffix ∈ VIDEO_EXTS then pyWithSuffix base ".strm" else base

/-! Concrete instances used by witnesses and counterexamples. -/

/-- Configuration with subtitles enabled, hierarchical, overwrite off. -/
def cfgSub : Alist2Strm :=
  mkAlist2Strm "/" ["t"] false true false false "AlistURL" false "" 50 5 true none

/-- Plain hierarchical configuration, no auxiliary downloads. -/
def cfgHier : Alist2Strm :=
  mkAlist2Strm "/" ["t"] false false false false "AlistURL" false "" 50 5 true none

/-- Raw-URL configuration whose `other_ext` puts `.mp4` in the download
set. -/
def cfgRaw : Alist2Strm :=
  mkAlist2Strm "/" ["t"] false false false false "RawURL" false ".mp4" 50 5 true none

/-- Minimal configuration for the reconciler instances. -/
def cfgTgt : Alist2Strm := { target_dir := ["t"] }

/-- Environment in which downloading `a.srt` fails. -/
def envDlFail : Env := { downloadFails := fun q => q.name == "a.srt" }

def treeSrt : List REntry := [REntry.node { name := "a.srt" } []]

def treeTwo : List REntry :=
  [REntry.node { name := "x.mp4" } [], REntry.node { name := "x.mkv" } []]

def treeSplit : List REntry :=
  [REntry.node { name := "movies", is_dir := true } [REntry.node { name := "x.mkv" } []],
   REntry.node { name := "tv", is_dir := true } [REntry.node { name := "x.mkv" } []]]

def pSrtOld : AlistPath := { name := "a.srt", size := 500, modified := "2024-01-02" }

def fsSrt : FS :=
  { files := [(["t", "a.srt"], { st_mtime := 0, st_size := 200 })]
    dirs := [([], {}), (["t"], {})] }

def pSrtUp : AlistPath := { name := "a.SRT", size := 500 }

def fsSrtUp : FS :=
  { files := [(["t", "a.SRT"], { st_mtime := 0, st_size := 200 })]
    dirs := [([], {}), (["t"], {})] }

def pMp4 : AlistPath := { name := "a.mp4" }

def treeMp4 : List REntry := [REntry.node pMp4 []]

def pMp4Mod : AlistPath := { name := "a.mp4", size := 100, modified := "2024-01-02T03:04:05" }

def treeMp4Mod : List REntry := [REntry.node pMp4Mod []]

def fsStrm : FS :=
  { files := [(["t", "a.strm"], { st_mtime := 0, st_size := 10 })]
    dirs := [([], {}), (["t"], {})] }

def pSrtBad : AlistPath := { name := "a.srt", size := 1, modified := "" }

def treeSrtBad : List REntry := [REntry.node pSrtBad []]

def fsOrphan : FS :=
  { files := [(["t", "movies", "b.strm"], {})]
    dirs := [([], {}), (["t"], {}), (["t", "movies"], {})] }

def fsPair : FS :=
  { files := [(["t", "movies", "b.strm"], {}), (["t", "movies", "a.strm"], {})]
    dirs := [([], {}), (["t"], {}), (["t", "movies"], {})] }

/-- Empty `t/movies` directory tree, for the walk instance. -/
def fsEmptyM : FS :=
  { files := []
    dirs := [([], {}), (["t"], {}), (["t", "movies"], {})] }

/-- The first task of the `treeTwo` run. -/
def dX : Dispatch := ⟨{ name := "x.mp4" }, "/x.mp4", 0⟩

/-- The traversal state the `treeTwo` run ends in. -/
def stTwo : TravState :=
  { processed := [["t", "x.strm"]]
    timeline := ["/x.mp4", "/x.mkv"]
    effects := []
    dispatches := [dX, ⟨{ name := "x.mkv" }, "/x.mkv", 1⟩] }

/-- The traversal state the `treeSrt` run ends in. -/
def stSrt : TravState :=
  { processed := [["t", "a.srt"]]
    timeline := ["/a.srt"]
    effects := []
    dispatches := [⟨{ name := "a.srt" }, "/a.srt", 0⟩] }

/-- The state the filter alone leaves after recording `a.srt` (no task
created yet). -/
def stSrtF : TravState :=
  { processed := [["t", "a.srt"]]
    timeline := ["/a.srt"]
    effects := []
    dispatches := [] }

/-- Semaphore state after spawn, spawn, acquire with one download permit. -/
def sSemA : SemState := ⟨0, 1, 1, 0, 0, 2⟩

/-- Semaphore state after one further pointer-task completion. -/
def sSemB : SemState := ⟨0, 0, 1, 1, 0, 2⟩

/-! Helper lemmas about the filesystem primitives. -/

theorem boolEqOfIff {a b : Bool} (h : a = true ↔ b = true) : a = b := by
  cases a <;> cases b <;> simp_all

theorem lookupStat_isSome_iff (l : List (LPath × FileStat)) (p : LPath) :
    (lookupStat l p).isSome = true ↔ ∃ st, (p, st) ∈ l := by
  simp only [lookupStat, Option.isSome_map', List.find?_isSome, beq_iff_eq]
  constructor
  · rintro ⟨e, he, hep⟩
    refine ⟨e.2, ?_⟩
    rw [← hep]
    simpa using he
  · rintro ⟨st, hst⟩
    exact ⟨(p, st), hst, rfl⟩

theorem fileExists_iff (fs : FS) (p : LPath) :
    fileExists fs p = true ↔ ∃ st, (p, st) ∈ fs.files :=
  lookupStat_isSome_iff fs.files p

theorem dirExists_iff (fs : FS) (d : LPath) :
    dirExists fs d = true ↔ ∃ st, (d, st) ∈ fs.dirs :=
  lookupStat_isSome_iff fs.dirs d

theorem fileExists_removeFile_ne (fs : FS) (q p : LPath) (h : p ≠ q) :
    fileExists (removeFile fs q) p = fileExists fs p := by
  apply boolEqOfIff
  simp only [fileExists_iff, removeFile, List.mem_filter, Bool.not_eq_eq_eq_not,
    Bool.not_true, beq_eq_false_iff_ne, ne_eq]
  constructor
  · rintro ⟨st, hst, _⟩
    exact ⟨st, hst⟩
  · rintro ⟨st, hst⟩
    exact ⟨st, hst, h⟩

theorem fileExists_removeFile_self (fs : FS) (q : LPath) :
    fileExists (removeFile fs q) q = false := by
  cases hb : fileExists (removeFile fs q) q with
  | false => rfl
  | true =>
      rw [fileExists_iff] at hb
      obtain ⟨st, hst⟩ := hb
      simp [removeFile, List.mem_filter] at hst

theorem fileExists_removeFile_mono (fs : FS) (q p : LPath)
    (h : fileExists (removeFile fs q) p = true) : fileExists fs p = true := by
  rw [fileExists_iff] at h ⊢
  obtain ⟨st, hst⟩ := h
  exact ⟨st, (List.mem_filter.mp hst).1⟩

theorem dirExists_removeDir_ne (fs : FS) (q d : LPath) (h : d ≠ q) :
    dirExists (removeDir fs q) d = dirExists fs d := by
  apply boolEqOfIff
  simp only [dirExists_iff, removeDir, List.mem_filter, Bool.not_eq_eq_eq_not,
    Bool.not_true, beq_eq_false_iff_ne, ne_eq]
  constructor
  · rintro ⟨st, hst, _⟩
    exact ⟨st, hst⟩
  · rintro ⟨st, hst⟩
    exact ⟨st, hst, h⟩

theorem dirExists_removeDir_mono (fs : FS) (q d : LPath)
    (h : dirExists (removeDir fs q) d = true) : dirExists fs d = true := by
  rw [dirExists_iff] at h ⊢
  obtain ⟨st, hst⟩ := h
  exact ⟨st, (List.mem_filter.mp hst).1⟩

theorem dirExists_removeDir_self (fs : FS) (q : LPath) :
    dirExists (removeDir fs q) q = false := by
  cases hb : dirExists (removeDir fs q) q with
  | false => rfl
  | true =>
      rw [dirExists_iff] at hb
      obtain ⟨st, hst⟩ := hb
      simp [removeDir, List.mem_filter] at hst

theorem files_removeDir (fs : FS) (d : LPath) : (removeDir fs d).files = fs.files := rfl

theorem files_rmdirUpwardAux (root : LPath) (l : List String) (fs : FS) :
    (rmdirUpwardAux root l fs).files = fs.files := by
  induction l generalizing fs with
  | nil => rfl
  | cons x rs ih =>
      simp only [rmdirUpwardAux]
      split
      · rfl
      · split
        · rfl
        · rw [ih, files_removeDir]

theorem files_rmdirUpward (root d : LPath) (fs : FS) :
    (rmdirUpward root d fs).files = fs.files :=
  files_rmdirUpwardAux root d.reverse fs

theorem dirExists_rmdirUpwardAux_mono (root : LPath) (l : List String) (fs : FS)
    (q : LPath) (h : dirExists (rmdirUpwardAux root l fs) q = true) :
    dirExists fs q = true := by
  induction l generalizing fs with
  | nil => exact h
  | cons x rs ih =>
      simp only [rmdirUpwardAux] at h
      split at h
      · exact h
      · split at h
        · exact h
        · exact dirExists_removeDir_mono _ _ _ (ih _ h)

theorem dirExists_rmdirUpwardAux_root (root : LPath) (l : List String) (fs : FS)
    (h : dirExists fs root = true) :
    dirExists (rmdirUpwardAux root l fs) root = true := by
  induction l generalizing fs with
  | nil => exact h
  | cons x rs ih =>
      simp only [rmdirUpwardAux]
      split
      · exact h
      · split
        · exact h
        · rename_i hne _
          refine ih _ ?_
          rw [dirExists_removeDir_ne fs _ root (fun hc => hne hc.symm)]
          exact h

/-- The loop shape of the upward walk, recovered from the structural
helper: from a non-root directory whose emptiness check passes, the walk
removes the directory and continues at its parent. -/
theorem rmdirUpward_eq (root d : LPath) (fs : FS) :
    rmdirUpward root d fs =
      if d = [] then fs
      else if d = root then fs
      else if dirNonEmpty fs d then fs
      else rmdirUpward root (parentOf d) (removeDir fs d) := by
  cases hd : d.reverse with
  | nil =>
      have hnil : d = [] := by
        have := congrArg List.reverse hd
        simpa using this
      simp [hnil, rmdirUpward, rmdirUpwardAux]
  | cons x rs =>
      have hrev : (x :: rs).reverse = d := by
        have h2 : d = (x :: rs).reverse := by
          have := congrArg List.reverse hd
          simpa using this
        exact h2.symm
      have hdne : d ≠ [] := by
        intro hc
        rw [hc] at hd
        exact List.noConfusion hd
      have hd2 : d = rs.reverse ++ [x] := by
        rw [← hrev]
        simp
      have hpar : parentOf d = rs.reverse := by
        rw [hd2, parentOf, List.dropLast_concat]
      simp only [rmdirUpward, hd, rmdirUpwardAux, hrev, hpar, List.reverse_reverse]
      simp [hdne]

theorem fileExists_rmdirUpward (root d : LPath) (fs : FS) (p : LPath) :
    fileExists (rmdirUpward root d fs) p = fileExists fs p := by
  simp only [fileExists]
  rw [files_rmdirUpward]

theorem dirExists_rmdirUpward_mono (root d : LPath) (fs : FS) (q : LPath)
    (h : dirExists (rmdirUpward root d fs) q = true) : dirExists fs q = true :=
  dirExists_rmdirUpwardAux_mono root d.reverse fs q h

theorem dirs_removeFile (fs : FS) (q : LPath) : (removeFile fs q).dirs = fs.dirs := rfl

theorem dirExists_removeFile (fs : FS) (q d : LPath) :
    dirExists (removeFile fs q) d = dirExists fs d := rfl

/-! Helper lemmas about the deletion loop. -/

theorem fileExists_deleteOne_mono (cfg : Alist2Strm) (fs : FS) (v p : LPath)
    (h : fileExists (deleteOne cfg fs v) p = true) : fileExists fs p = true := by
  unfold deleteOne at h
  split at h
  · exact h
  · split at h
    · rw [fileExists_rmdirUpward] at h
      exact fileExists_removeFile_mono fs v p h
    · exact h

theorem fileExists_deleteOne_ne (cfg : Alist2Strm) (fs : FS) (v p : LPath)
    (hne : p ≠ v) (h : fileExists fs p = true) :
    fileExists (deleteOne cfg fs v) p = true := by
  unfold deleteOne
  split
  · exact h
  · split
    · rw [fileExists_rmdirUpward, fileExists_removeFile_ne fs v p hne]
      exact h
    · exact h

theorem fileExists_deleteOne_self (cfg : Alist2Strm) (fs : FS) (v : LPath)
    (hig : ignores cfg v = false) : fileExists (deleteOne cfg fs v) v = false := by
  unfold deleteOne
  rw [hig]
  simp only [Bool.false_eq_true, if_false]
  split
  · rw [fileExists_rmdirUpward]
    exact fileExists_removeFile_self fs v
  · rename_i hne
    cases hb : fileExists fs v with
    | false => rfl
    | true => exact absurd hb hne

theorem fileExists_deleteOne_gone (cfg : Alist2Strm) (fs : FS) (v p : LPath)
    (h : fileExists fs p = false) : fileExists (deleteOne cfg fs v) p = false := by
  cases hb : fileExists (deleteOne cfg fs v) p with
  | false => rfl
  | true => rw [fileExists_deleteOne_mono cfg fs v p hb] at h; exact h

theorem dirExists_deleteOne_target (cfg : Alist2Strm) (fs : FS) (v : LPath)
    (h : dirExists fs cfg.target_dir = true) :
    dirExists (deleteOne cfg fs v) cfg.target_dir = true := by
  unfold deleteOne
  split
  · exact h
  · split
    · exact dirExists_rmdirUpwardAux_root _ _ _ (by rw [dirExists_removeFile]; exact h)
    · exact h

theorem foldl_deleteOne_preserve (cfg : Alist2Strm) (l : List LPath) (fs : FS)
    (p : LPath) (hl : ∀ v ∈ l, p ≠ v) (h : fileExists fs p = true) :
    fileExists (l.foldl (deleteOne cfg) fs) p = true := by
  induction l generalizing fs with
  | nil => exact h
  | cons v l ih =>
      simp only [List.foldl_cons]
      refine ih _ (fun w hw => hl w (List.mem_cons_of_mem v hw)) ?_
      exact fileExists_deleteOne_ne cfg fs v p (hl v (List.mem_cons_self v l)) h

theorem foldl_deleteOne_gone (cfg : Alist2Strm) (l : List LPath) (fs : FS)
    (p : LPath) (h : fileExists fs p = false) :
    fileExists (l.foldl (deleteOne cfg) fs) p = false := by
  induction l generalizing fs with
  | nil => exact h
  | cons v l ih =>
      simp only [List.foldl_cons]
      exact ih _ (fileExists_deleteOne_gone cfg fs v p h)

theorem foldl_deleteOne_kill (cfg : Alist2Strm) (l : List LPath) (fs : FS)
    (q : LPath) (hq : q ∈ l) (hig : ignores cfg q = false) :
    fileExists (l.foldl (deleteOne cfg) fs) q = false := by
  induction l generalizing fs with
  | nil => cases hq
  | cons v l ih =>
      simp only [List.foldl_cons]
      by_cases hv : v = q
      · subst hv
        exact foldl_deleteOne_gone cfg l _ v (fileExists_deleteOne_self cfg fs v hig)
      · rcases List.mem_cons.mp hq with h1 | h2
        · exact absurd h1.symm hv
        · exact ih _ h2

theorem foldl_deleteOne_target (cfg : Alist2Strm) (l : List LPath) (fs : FS)
    (h : dirExists fs cfg.target_dir = true) :
    dirExists (l.foldl (deleteOne cfg) fs) cfg.target_dir = true := by
  induction l generalizing fs with
  | nil => exact h
  | cons v l ih =>
      simp only [List.foldl_cons]
      exact ih _ (dirExists_deleteOne_target cfg fs v h)

/-! Helper lemmas about the string primitives and the traversal. -/

theorem removeFirstOcc_drop (pat l : List Char) (h : pat.isPrefixOf l = true) :
    removeFirstOcc pat l = l.drop pat.length := by
  cases l with
  | nil =>
      have hp : pat = [] := by
        have := List.isPrefixOf_iff_prefix.mp h
        simpa using this
      simp [removeFirstOcc, hp]
  | cons x xs => simp [removeFirstOcc, h]

theorem normMode_cases (m : String) :
    normMode m = "AlistURL" ∨ normMode m = "RawURL" ∨ normMode m = "AlistPath" := by
  unfold normMode
  split
  · rename_i h
    simp only [List.mem_cons, List.not_mem_nil, or_false] at h
    rcases h with h | h | h
    · exact Or.inl h
    · exact Or.inr (Or.inl h)
    · exact Or.inr (Or.inr h)
  · exact Or.inl rfl



theorem filterStep_shape (cfg : Alist2Strm) (env : Env) (fs : FS)
    (st : TravState) (p : AlistPath) (fp : String) (b : Bool) (st' : TravState)
    (h : filterStep cfg env fs st p fp = .ok (b, st')) :
    (b = false ∧ st' = st) ∨ st' = recordState cfg st p fp := by
  simp only [filterStep] at h
  unfold recordState
  repeat' split at h
  all_goals simp only [Except.ok.injEq, Prod.mk.injEq, reduceCtorEq] at h
  all_goals try exact Or.inl ⟨h.1.symm, h.2.symm⟩
  all_goals try cases h
  all_goals subst st'
  all_goals refine Or.inr ?_
  all_goals simp_all

theorem filterStep_ok_cases (cfg : Alist2Strm) (env : Env) (fs : FS)
    (st : TravState) (p : AlistPath) (fp : String) (b : Bool) (st' : TravState)
    (h : filterStep cfg env fs st p fp = .ok (b, st')) :
    st' = st ∨ st' = recordState cfg st p fp := by
  rcases filterStep_shape cfg env fs st p fp b st' h with h2 | h2
  · exact Or.inl h2.2
  · exact Or.inr h2

theorem filterStep_true (cfg : Alist2Strm) (env : Env) (fs : FS)
    (st : TravState) (p : AlistPath) (fp : String) (st' : TravState)
    (h : filterStep cfg env fs st p fp = .ok (true, st')) :
    st' = recordState cfg st p fp := by
  rcases filterStep_shape cfg env fs st p fp true st' h with h2 | h2
  · cases h2.1
  · exact h2

theorem filterStep_processed_mono (cfg : Alist2Strm) (env : Env) (fs : FS)
    (st : TravState) (p : AlistPath) (fp : String) (b : Bool) (st' : TravState)
    (h : filterStep cfg env fs st p fp = .ok (b, st')) :
    st.processed ⊆ st'.processed := by
  rcases filterStep_ok_cases cfg env fs st p fp b st' h with h2 | h2
  · rw [h2]
    exact fun q hq => hq
  · rw [h2]
    unfold recordState
    split
    · exact fun q hq => hq
    · exact fun q hq => List.mem_cons_of_mem _ hq

theorem filterStep_frame (cfg : Alist2Strm) (env : Env) (fs : FS)
    (st : TravState) (p : AlistPath) (fp : String) (b : Bool) (st' : TravState)
    (h : filterStep cfg env fs st p fp = .ok (b, st')) :
    st'.dispatches = st.dispatches ∧ st'.effects = st.effects ∧
      (st'.timeline = st.timeline ∨ st'.timeline = st.timeline ++ [fp]) := by
  rcases filterStep_ok_cases cfg env fs st p fp b st' h with h2 | h2
  · rw [h2]
    exact ⟨rfl, rfl, Or.inl rfl⟩
  · rw [h2]
    exact ⟨rfl, rfl, Or.inr rfl⟩



theorem travStep_ok_destruct (cfg : Alist2Strm) (env : Env) (fs : FS) (det : Bool)
    (st : TravState) (pr : AlistPath × String) (st' : TravState)
    (h : travStep cfg env fs det st pr = .ok st') :
    ∃ b st1, filterStep cfg env fs st pr.1 pr.2 = .ok (b, st1) ∧
      ((b = false ∧ st' = st1) ∨
       (b = true ∧ st' = { st1 with
          effects := st1.effects ++ (if det then [Effect.detailCall pr.2] else [])
          dispatches := st1.dispatches ++ [newDispatch env det st1 pr] })) := by
  unfold newDispatch
  cases hf : filterStep cfg env fs st pr.1 pr.2 with
  | error e =>
      simp only [travStep, hf, Bind.bind, Except.bind] at h
      exact Except.noConfusion h
  | ok v =>
      obtain ⟨b, st1⟩ := v
      refine ⟨b, st1, rfl, ?_⟩
      simp only [travStep, hf, Bind.bind, Except.bind] at h
      cases b with
      | false =>
          simp only [Bool.false_eq_true, if_false, pure, Except.pure, Except.ok.injEq] at h
          exact Or.inl ⟨rfl, h.symm⟩
      | true =>
          simp only [if_true, pure, Except.pure, Except.ok.injEq] at h
          exact Or.inr ⟨rfl, h.symm⟩

theorem travStep_processed_mono (cfg : Alist2Strm) (env : Env) (fs : FS) (det : Bool)
    (st : TravState) (pr : AlistPath × String) (st' : TravState)
    (h : travStep cfg env fs det st pr = .ok st') :
    st.processed ⊆ st'.processed := by
  obtain ⟨b, st1, hf, hc⟩ := travStep_ok_destruct cfg env fs det st pr st' h
  have hm := filterStep_processed_mono cfg env fs st pr.1 pr.2 b st1 hf
  rcases hc with ⟨_, h2⟩ | ⟨_, h2⟩
  · rw [h2]; exact hm
  · rw [h2]; exact hm





theorem get?_extend {l l2 : List String} {i : Nat} {v : String}
    (h : l.get? i = some v) : (l ++ l2).get? i = some v := by
  have hlt : i < l.length := by
    cases hq : l.get? i with
    | none => rw [hq] at h; cases h
    | some w =>
        have := List.get?_eq_some.mp hq
        exact this.1
  rw [List.get?_append hlt]
  exact h

theorem travStep_timelineInv (cfg : Alist2Strm) (env : Env) (fs : FS) (det : Bool)
    (st : TravState) (pr : AlistPath × String) (st' : TravState)
    (h : travStep cfg env fs det st pr = .ok st') (hi : timelineInv st) :
    timelineInv st' := by
  obtain ⟨b, st1, hf, hc⟩ := travStep_ok_destruct cfg env fs det st pr st' h
  have hcases := filterStep_ok_cases cfg env fs st pr.1 pr.2 b st1 hf
  rcases hc with ⟨_, h2⟩ | ⟨hb, h2⟩
  · subst h2
    rcases hcases with h3 | h3
    · subst h3; exact hi
    · subst h3
      intro d hd
      exact get?_extend (hi d hd)
  · subst hb
    have h3 := filterStep_true cfg env fs st pr.1 pr.2 st1 hf
    subst h3
    subst h2
    intro d hd
    simp only [recordState] at hd ⊢
    rcases List.mem_append.mp hd with hold | hnew
    · exact get?_extend (hi d hold)
    · have hd2 := List.mem_singleton.mp hnew
      subst hd2
      simp only [newDispatch, recordState, List.length_append, List.length_singleton]
      have : st.timeline.length + 1 - 1 = st.timeline.length := by omega
      rw [this]
      exact List.get?_concat_length st.timeline pr.2

theorem travStep_recInv (cfg : Alist2Strm) (env : Env) (fs : FS)
    (st : TravState) (pr : AlistPath × String) (st' : TravState)
    (h : travStep cfg env fs false st pr = .ok st') (hi : recInv cfg st) :
    recInv cfg st' := by
  obtain ⟨b, st1, hf, hc⟩ := travStep_ok_destruct cfg env fs false st pr st' h
  have hmono := filterStep_processed_mono cfg env fs st pr.1 pr.2 b st1 hf
  rcases hc with ⟨_, h2⟩ | ⟨hb, h2⟩
  · have hfr := filterStep_frame cfg env fs st pr.1 pr.2 b st1 hf
    subst h2
    intro d hd
    rw [hfr.1] at hd
    exact hmono (hi d hd)
  · subst hb
    have h3 := filterStep_true cfg env fs st pr.1 pr.2 st1 hf
    subst h3
    subst h2
    intro d hd
    simp only [recordState] at hd ⊢
    rcases List.mem_append.mp hd with hold | hnew
    · exact hmono (hi d hold)
    · have hd2 := List.mem_singleton.mp hnew
      subst hd2
      simp only [newDispatch, if_neg]
      split
      · rename_i hmem
        exact hmem
      · exact List.mem_cons_self _ _

theorem foldlM_except_inv {α σ : Type} (f : σ → α → Except PyErr σ) (P : σ → Prop)
    (hf : ∀ s a s', f s a = .ok s' → P s → P s') :
    ∀ (l : List α) (s s' : σ), l.foldlM f s = .ok s' → P s → P s' := by
  intro l
  induction l with
  | nil =>
      intro s s' h hp
      simp only [List.foldlM_nil, pure, Except.pure, Except.ok.injEq] at h
      rwa [← h]
  | cons a l ih =>
      intro s s' h hp
      simp only [List.foldlM_cons, Bind.bind] at h
      cases ha : f s a with
      | error e =>
          rw [ha] at h
          simp only [Except.bind] at h
          exact Except.noConfusion h
      | ok s1 =>
          rw [ha] at h
          simp only [Except.bind] at h
          exact ih s1 s' h (hf s a s1 ha hp)

theorem runTraverse_timelineInv (cfg : Alist2Strm) (env : Env) (fs : FS)
    (tree : List REntry) (st : TravState)
    (h : runTraverse cfg env fs tree = .ok st) : timelineInv st := by
  unfold runTraverse at h
  refine foldlM_except_inv _ timelineInv ?_ _ _ _ h ?_
  · intro s a s' hstep hp
    exact travStep_timelineInv cfg env fs _ s a s' hstep hp
  · intro d hd
    cases hd

theorem runTraverse_recInv (cfg : Alist2Strm) (env : Env) (fs : FS)
    (tree : List REntry) (st : TravState)
    (hmode : normMode cfg.mode ≠ "RawURL")
    (h : runTraverse cfg env fs tree = .ok st) : recInv cfg st := by
  unfold runTraverse at h
  have hdet : (normMode cfg.mode == "RawURL") = false := by
    simp only [beq_eq_false_iff_ne, ne_eq]
    exact hmode
  rw [hdet] at h
  refine foldlM_except_inv _ (recInv cfg) ?_ _ _ _ h ?_
  · intro s a s' hstep hp
    exact travStep_recInv cfg env fs s a s' hstep hp
  · intro d hd
    cases hd

/-! Helper lemmas about the task body and the task loop. -/

theorem fileProcesser_ok_writes (cfg : Alist2Strm) (env : Env) (mode : String)
    (p : AlistPath) (fp : String) (effs : List Effect)
    (h : fileProcesser cfg env mode p (some fp) = .ok effs) :
    writesOf effs = [getLocalPath cfg p fp] := by
  simp only [fileProcesser] at h
  repeat' split at h
  all_goals simp only [Except.ok.injEq, reduceCtorEq] at h
  all_goals try cases h
  all_goals simp [writesOf]

theorem taskRead_lt (timeline : List String) (c k : Nat) (hc : c < timeline.length) :
    ∃ v, taskRead timeline c k = some v := by
  have hlt : min (max k c) (timeline.length - 1) < timeline.length :=
    Nat.lt_of_le_of_lt (Nat.min_le_right _ _) (by omega)
  exact ⟨_, List.get?_eq_get hlt⟩

theorem fileProcesser_benign_ok (cfg : Alist2Strm) (env : Env) (mode : String)
    (p : AlistPath) (fp : String)
    (hpe : ∀ q s, env.pathError q s = false)
    (hmk : ∀ l, env.mkdirFails l = false)
    (hwr : ∀ l, env.writeFails l = false)
    (hdl : ∀ q, env.downloadFails q = false)
    (hm : mode = "AlistURL" ∨ mode = "RawURL") :
    ∃ effs, fileProcesser cfg env mode p (some fp) = .ok effs := by
  cases hx : fileProcesser cfg env mode p (some fp) with
  | ok e => exact ⟨e, rfl⟩
  | error e =>
      exfalso
      rcases hm with hm | hm <;> subst hm <;>
        simp only [fileProcesser, hpe, hmk, hwr, hdl] at hx <;>
        simp at hx <;>
        split at hx <;> simp at hx

theorem runTasks_benign_ok (cfg : Alist2Strm) (env : Env) (mode : String)
    (timeline : List String) (σ : Nat → Nat)
    (hpe : ∀ q s, env.pathError q s = false)
    (hmk : ∀ l, env.mkdirFails l = false)
    (hwr : ∀ l, env.writeFails l = false)
    (hdl : ∀ q, env.downloadFails q = false)
    (hm : mode = "AlistURL" ∨ mode = "RawURL") :
    ∀ (ds : List Dispatch) (i : Nat), (∀ d ∈ ds, d.cIdx < timeline.length) →
      ∃ effs, runTasks cfg env mode timeline σ ds i = .ok effs := by
  intro ds
  induction ds with
  | nil => exact fun i _ => ⟨[], rfl⟩
  | cons d ds ih =>
      intro i hall
      obtain ⟨v, hv⟩ := taskRead_lt timeline d.cIdx (σ i) (hall d (List.mem_cons_self d ds))
      obtain ⟨e1, he1⟩ := fileProcesser_benign_ok cfg env mode d.p v hpe hmk hwr hdl hm
      obtain ⟨e2, he2⟩ := ih (i + 1) (fun d2 h2 => hall d2 (List.mem_cons_of_mem d h2))
      refine ⟨e1 ++ e2, ?_⟩
      simp only [runTasks, hv, he1, he2, Bind.bind, Except.bind, pure, Except.pure]

/-! Helper lemmas about the semaphore machine. -/

theorem semStep_dl_sum {s s2 : SemState} {a : SemAct} (h : semStep s a = some s2) :
    s2.activeDl + s2.dlAvail = s.activeDl + s.dlAvail := by
  cases a with
  | spawn =>
      simp only [semStep] at h
      split at h
      · injection h with h2
        subst h2
        rfl
      · cases h
  | acquireDl =>
      simp only [semStep] at h
      split at h
      · rename_i hcond
        simp only [Bool.and_eq_true, decide_eq_true_eq] at hcond
        injection h with h2
        subst h2
        simp only []
        omega
      · cases h
  | finishDl =>
      simp only [semStep] at h
      split at h
      · rename_i hcond
        injection h with h2
        subst h2
        simp only []
        omega
      · cases h
  | finishStrm =>
      simp only [semStep] at h
      split at h
      · injection h with h2
        subst h2
        rfl
      · cases h

theorem semExec_dl_sum (acts : List SemAct) :
    ∀ (s s' : SemState), semExec s acts = some s' →
      s'.activeDl + s'.dlAvail = s.activeDl + s.dlAvail := by
  induction acts with
  | nil =>
      intro s s' h
      simp only [semExec] at h
      injection h with h2
      rw [h2]
  | cons a rest ih =>
      intro s s' h
      simp only [semExec] at h
      cases hst : semStep s a with
      | none => rw [hst] at h; cases h
      | some s2 =>
          rw [hst] at h
          rw [ih s2 s' h, semStep_dl_sum hst]

theorem semStep_strm_no_dl (s s2 : SemState)
    (h : semStep s .finishStrm = some s2) :
    s2.activeDl = s.activeDl ∧ s2.dlAvail = s.dlAvail := by
  simp only [semStep] at h
  split at h
  · injection h with h2
    subst h2
    exact ⟨rfl, rfl⟩
  · cases h

theorem filterStep_records (cfg : Alist2Strm) (env : Env) (fs : FS)
    (st : TravState) (p : AlistPath) (fp : String) (b : Bool) (st' : TravState)
    (hdir : p.is_dir = false)
    (hproc : pyLower p.suffix ∈ cfg.process_file_exts)
    (hpe : env.pathError p fp = false)
    (h : filterStep cfg env fs st p fp = .ok (b, st')) :
    st' = recordState cfg st p fp := by
  simp only [filterStep] at h
  unfold recordState
  repeat' split at h
  all_goals simp only [Except.ok.injEq, Prod.mk.injEq, reduceCtorEq] at h
  all_goals try cases h
  all_goals simp_all

theorem runWith_benign_ok (cfg : Alist2Strm) (env : Env) (fs : FS)
    (tree : List REntry) (σ : Nat → Nat) (st : TravState)
    (hpe : ∀ q s, env.pathError q s = false)
    (hmk : ∀ l, env.mkdirFails l = false)
    (hwr : ∀ l, env.writeFails l = false)
    (hdl : ∀ q, env.downloadFails q = false)
    (hnm : normMode cfg.mode ≠ "AlistPath")
    (htrav : runTraverse cfg env fs tree = .ok st) :
    ∃ effs, runWith cfg env fs tree σ = .ok effs := by
  have hinv := runTraverse_timelineInv cfg env fs tree st htrav
  have hlt : ∀ d ∈ st.dispatches, d.cIdx < st.timeline.length := by
    intro d hd
    exact (List.get?_eq_some.mp (hinv d hd)).1
  have hm : normMode cfg.mode = "AlistURL" ∨ normMode cfg.mode = "RawURL" := by
    rcases normMode_cases cfg.mode with h | h | h
    · exact Or.inl h
    · exact Or.inr h
    · exact absurd h hnm
  obtain ⟨effs, he⟩ := runTasks_benign_ok cfg env (normMode cfg.mode) st.timeline σ
    hpe hmk hwr hdl hm st.dispatches 0 hlt
  refine ⟨st.effects ++ effs, ?_⟩
  simp only [runWith, htrav, he, Bind.bind, Except.bind, pure, Except.pure]

theorem taskRead_self (timeline : List String) (c : Nat) (v : String)
    (hc : timeline.get? c = some v) : taskRead timeline c c = some v := by
  unfold taskRead
  have hlt : c < timeline.length := (List.get?_eq_some.mp hc).1
  have hm : min (max c c) (timeline.length - 1) = c := by
    rw [Nat.max_self]
    exact Nat.min_eq_left (by omega)
  rw [hm]
  exact hc

/-! Claim theorems. -/

/-- Claim C1, counterexample: a run over a single subtitle entry whose
download fails does not return normally with a best-effort mirror — the
uncaught failure inside the dispatched task propagates and aborts the run,
although no top-level listing or authentication error occurred. -/
theorem C1_counterexample :
    runWith cfgSub envDlFail {} treeSrt (fun _ => 0) = .error PyErr.requestError := by
  decide

/-- Claim C1 (amended): a path-construction `OSError` raised while
filtering an entry is caught and merely skips that entry; but no exception
is caught inside a dispatched entry task, so the run returns normally
exactly when the traversal succeeds and every dispatched task (download,
directory creation, pointer write) succeeds — a single task failure aborts
the whole run.  Moreover, in `AlistPath` mode every dispatched task fails
unconditionally: the body reads `path.path`, an attribute the `AlistPath`
model does not have, raising `AttributeError`; only in the other two modes
does a benign run return normally. -/
theorem C1_failure_semantics :
    (∀ (cfg : Alist2Strm) (env : Env) (fs : FS) (st : TravState)
       (p : AlistPath) (fp : String),
       env.pathError p fp = true → p.is_dir = false →
       pyLower p.suffix ∈ cfg.process_file_exts →
       filterStep cfg env fs st p fp = .ok (false, st))
    ∧ (∀ (cfg : Alist2Strm) (env : Env) (fs : FS) (tree : List REntry)
         (σ : Nat → Nat) (st : TravState),
         (∀ q s, env.pathError q s = false) → (∀ l, env.mkdirFails l = false) →
         (∀ l, env.writeFails l = false) → (∀ q, env.downloadFails q = false) →
         normMode cfg.mode ≠ "AlistPath" →
         runTraverse cfg env fs tree = .ok st →
         ∃ effs, runWith cfg env fs tree σ = .ok effs)
    ∧ (∀ (cfg : Alist2Strm) (env : Env) (p : AlistPath) (fp : String),
         env.pathError p fp = false →
         fileProcesser cfg env "AlistPath" p (some fp) = .error PyErr.attributeError) := by
  refine ⟨?_, ?_, ?_⟩
  · intro cfg env fs st p fp hpe hdir hproc
    unfold filterStep
    rw [if_neg (by simp [hdir]), if_neg (by simp [hproc]), if_pos (by simp [hpe])]
  · intro cfg env fs tree σ st hpe hmk hwr hdl hnm htrav
    exact runWith_benign_ok cfg env fs tree σ st hpe hmk hwr hdl hnm htrav
  · intro cfg env p fp hpe
    simp [fileProcesser, hpe]

/-- Witness for C1: the filter catches a path-construction failure for a
concrete subtitle entry, the benign `AlistURL`-mode run over the same tree
returns normally, and the `AlistPath`-mode task body fails on the missing
attribute. -/
theorem C1_failure_semantics_witness :
    filterStep cfgSub { pathError := fun _ _ => true } {} {} { name := "a.srt" } "/a.srt" =
      .ok (false, {}) ∧
    (∃ effs, runWith cfgSub {} {} treeSrt (fun _ => 0) = .ok effs) ∧
    fileProcesser cfgSub {} "AlistPath" { name := "a.srt" } (some "/a.srt") =
      .error PyErr.attributeError :=
  ⟨C1_failure_semantics.1 cfgSub { pathError := fun _ _ => true } {} {}
      { name := "a.srt" } "/a.srt" rfl rfl (by decide),
   C1_failure_semantics.2.1 cfgSub {} {} treeSrt (fun _ => 0) stSrt
      (fun _ _ => rfl) (fun _ => rfl) (fun _ => rfl) (fun _ => rfl) (by decide) (by decide),
   C1_failure_semantics.2.2 cfgSub {} { name := "a.srt" } "/a.srt" rfl⟩

/-- Claim C2, counterexample: two entries with the same stem and different
media extensions are both written to the same local path even under
immediate scheduling; and under a delayed schedule a task recomputes its
path from the shared `self.full_path` field, which already holds a later
entry's path, so the written path differs from the one the filter
recorded. -/
theorem C2_counterexample :
    (runWith cfgHier {} {} treeTwo (fun _ => 0)).map writesOf =
      .ok [["t", "x.strm"], ["t", "x.strm"]] ∧
    (runWith cfgHier {} {} treeSplit (fun _ => 99)).map writesOf =
      .ok [["t", "tv", "x.strm"], ["t", "tv", "x.strm"]] ∧
    (runTraverse cfgHier {} {} treeSplit).map
      (fun st => decide ((["t", "movies", "x.strm"] : LPath) ∈ st.processed)) = .ok true ∧
    (["t", "tv", "x.strm"] : LPath) ≠ ["t", "movies", "x.strm"] := by
  decide

/-- Claim C2 (amended): in non-detail modes, whenever a task executes
before any later filter invocation has overwritten the shared
`self.full_path` field, it recomputes exactly the path the filter recorded
for its entry (which is in the touched set), and everything it writes goes
to that path; recorded paths of distinct entries need not be distinct, so
two tasks may still target one local path. -/
theorem C2_recorded_path (cfg : Alist2Strm) (env : Env) (fs : FS)
    (tree : List REntry) (st : TravState)
    (hmode : normMode cfg.mode ≠ "RawURL")
    (h : runTraverse cfg env fs tree = .ok st) :
    ∀ d ∈ st.dispatches,
      taskRead st.timeline d.cIdx d.cIdx = some d.fp ∧
      getLocalPath cfg d.p d.fp ∈ st.processed ∧
      (∀ effs, fileProcesser cfg env (normMode cfg.mode) d.p
          (taskRead st.timeline d.cIdx d.cIdx) = .ok effs →
        writesOf effs = [getLocalPath cfg d.p d.fp]) := by
  intro d hd
  have h1 := runTraverse_timelineInv cfg env fs tree st h d hd
  have h2 := runTraverse_recInv cfg env fs tree st hmode h d hd
  have h3 := taskRead_self st.timeline d.cIdx d.fp h1
  refine ⟨h3, h2, ?_⟩
  intro effs heff
  rw [h3] at heff
  exact fileProcesser_ok_writes cfg env _ d.p d.fp effs heff

/-- Witness for C2: the first task of the two-entry run reads its own full
path and its recorded local path is in the touched set. -/
theorem C2_recorded_path_witness :
    taskRead stTwo.timeline dX.cIdx dX.cIdx = some dX.fp ∧
    getLocalPath cfgHier dX.p dX.fp ∈ stTwo.processed ∧
    (∀ effs, fileProcesser cfgHier {} (normMode cfgHier.mode) dX.p
        (taskRead stTwo.timeline dX.cIdx dX.cIdx) = .ok effs →
      writesOf effs = [getLocalPath cfgHier dX.p dX.fp]) :=
  C2_recorded_path cfgHier {} {} treeTwo stTwo (by decide) (by decide) dX (by decide)

/-- Claim C3, counterexample: with a worker limit of 1, two created tasks
can be in flight simultaneously — the worker semaphore is acquired once
around the whole traversal rather than per task, so it does not bound the
number of in-flight tasks. -/
theorem C3_counterexample :
    (semExec (semInit 2 1 5) [SemAct.spawn, SemAct.spawn]).map inFlight = some 2 ∧
    1 < 2 := by
  decide

/-- Claim C3 (amended): the number of tasks simultaneously inside the
download semaphore never exceeds the configured download limit in any
reachable state, and pointer-file task steps never touch the download
semaphore; the worker limit, however, does not bound in-flight tasks. -/
theorem C3_download_limit :
    (∀ (n w m : Nat) (acts : List SemAct) (s' : SemState),
       semExec (semInit n w m) acts = some s' → s'.activeDl ≤ m)
    ∧ (∀ (s s2 : SemState), semStep s SemAct.finishStrm = some s2 →
       s2.activeDl = s.activeDl ∧ s2.dlAvail = s.dlAvail) := by
  constructor
  · intro n w m acts s' h
    have hsum := semExec_dl_sum acts _ _ h
    simp only [semInit] at hsum
    omega
  · exact semStep_strm_no_dl

/-- Witness for C3: a concrete schedule with one download permit keeps at
most one active download, and a pointer-task completion leaves the download
semaphore untouched. -/
theorem C3_download_limit_witness :
    sSemA.activeDl ≤ 1 ∧
    (sSemB.activeDl = sSemA.activeDl ∧ sSemB.dlAvail = sSemA.dlAvail) :=
  ⟨C3_download_limit.1 2 3 1 [SemAct.spawn, SemAct.spawn, SemAct.acquireDl] sSemA (by decide),
   C3_download_limit.2 sSemA sSemB (by decide)⟩

/-- Claim C4: a local file whose path was recorded in
`processed_local_paths` during the run is never deleted by the reconciler,
whatever its content, mtime or size. -/
theorem C4_touched_preserved (cfg : Alist2Strm) (fs : FS) (touched : List LPath)
    (p : LPath) (hp : p ∈ touched) (hex : fileExists fs p = true) :
    fileExists (cleanupLocalFiles cfg fs touched) p = true := by
  unfold cleanupLocalFiles
  refine foldl_deleteOne_preserve cfg _ fs p ?_ hex
  intro v hv hpv
  subst hpv
  have hm := List.mem_filter.mp hv
  rcases hm with ⟨_, hc⟩
  simp only [Bool.not_eq_true'] at hc
  have hcontains : touched.contains p = true := by
    simp only [List.contains, List.elem_iff]
    exact hp
  rw [hcontains] at hc
  cases hc

/-- Witness for C4: the touched file `t/movies/a.strm` survives a cleanup
that deletes its orphan sibling. -/
theorem C4_touched_preserved_witness :
    (["t", "movies", "a.strm"] : LPath) ∈ [(["t", "movies", "a.strm"] : LPath)] ∧
    fileExists (cleanupLocalFiles cfgTgt fsPair [["t", "movies", "a.strm"]])
      ["t", "movies", "a.strm"] = true :=
  ⟨by decide,
   C4_touched_preserved cfgTgt fsPair [["t", "movies", "a.strm"]]
     ["t", "movies", "a.strm"] (by decide) (by decide)⟩

/-- Claim C5: after reconciliation every enumerated local file that is
neither touched nor ignored no longer exists; the target root directory is
never removed; and the upward walk performed after each deletion stops
unchanged at the target root or at a non-empty directory, while a
non-root directory found empty is removed and the walk continues at its
parent. -/
theorem C5_reconciliation (cfg : Alist2Strm) (fs : FS) (touched : List LPath) :
    (∀ q ∈ allLocalFiles cfg fs, q ∉ touched → ignores cfg q = false →
       fileExists (cleanupLocalFiles cfg fs touched) q = false)
    ∧ (dirExists fs cfg.target_dir = true →
       dirExists (cleanupLocalFiles cfg fs touched) cfg.target_dir = true)
    ∧ (∀ (fs2 : FS) (d : LPath), d = cfg.target_dir ∨ dirNonEmpty fs2 d = true →
       rmdirUpward cfg.target_dir d fs2 = fs2)
    ∧ (∀ (fs2 : FS) (d : LPath), d ≠ cfg.target_dir → d ≠ [] →
       dirNonEmpty fs2 d = false →
       dirExists (rmdirUpward cfg.target_dir d fs2) d = false ∧
       rmdirUpward cfg.target_dir d fs2 =
         rmdirUpward cfg.target_dir (parentOf d) (removeDir fs2 d)) := by
  refine ⟨?_, ?_, ?_, ?_⟩
  · intro q hq hnt hig
    unfold cleanupLocalFiles
    refine foldl_deleteOne_kill cfg _ fs q ?_ hig
    rw [List.mem_filter]
    refine ⟨hq, ?_⟩
    simp only [Bool.not_eq_true']
    cases hb : touched.contains q with
    | false => rfl
    | true =>
        exfalso
        apply hnt
        have hmem := hb
        simp only [List.contains, List.elem_iff] at hmem
        exact hmem
  · intro h
    unfold cleanupLocalFiles
    exact foldl_deleteOne_target cfg _ fs h
  · intro fs2 d hd
    rw [rmdirUpward_eq]
    rcases hd with hd | hd
    · subst hd
      split
      · rfl
      · rw [if_pos rfl]
    · simp [hd]
  · intro fs2 d h1 h2 h3
    have hstep : rmdirUpward cfg.target_dir d fs2 =
        rmdirUpward cfg.target_dir (parentOf d) (removeDir fs2 d) := by
      rw [rmdirUpward_eq]
      simp [h1, h2, h3]
    refine ⟨?_, hstep⟩
    rw [hstep]
    cases hb : dirExists (rmdirUpward cfg.target_dir (parentOf d) (removeDir fs2 d)) d with
    | false => rfl
    | true =>
        exfalso
        have hmono := dirExists_rmdirUpward_mono _ _ _ _ hb
        rw [dirExists_removeDir_self] at hmono
        cases hmono

/-- Witness for C5: the orphan `t/movies/b.strm` is gone after cleanup,
the target root survives, the walk stops at the target root, and the
emptied `t/movies` directory is removed by the walk. -/
theorem C5_reconciliation_witness :
    fileExists (cleanupLocalFiles cfgTgt fsOrphan []) ["t", "movies", "b.strm"] = false ∧
    dirExists (cleanupLocalFiles cfgTgt fsOrphan []) cfgTgt.target_dir = true ∧
    rmdirUpward cfgTgt.target_dir cfgTgt.target_dir fsOrphan = fsOrphan ∧
    dirExists (rmdirUpward cfgTgt.target_dir ["t", "movies"] fsEmptyM) ["t", "movies"] = false :=
  ⟨(C5_reconciliation cfgTgt fsOrphan []).1 ["t", "movies", "b.strm"]
      (by decide) (by decide) (by decide),
   (C5_reconciliation cfgTgt fsOrphan []).2.1 (by decide),
   (C5_reconciliation cfgTgt fsOrphan []).2.2.1 fsOrphan cfgTgt.target_dir (Or.inl rfl),
   ((C5_reconciliation cfgTgt fsOrphan []).2.2.2 fsEmptyM ["t", "movies"]
      (by decide) (by decide) (by decide)).1⟩

/-- Claim C6, counterexample: an auxiliary entry whose extension is in the
download set only up to letter case (`a.SRT` with subtitles enabled), with
overwrite off, an existing local copy and a smaller local size, is NOT
reprocessed: the filter's reprocessing test matches the exact suffix
case-sensitively, falls into the existence-only branch and returns
false. -/
theorem C6_counterexample :
    pyLower pSrtUp.suffix ∈ cfgSub.download_exts ∧
    cfgSub.overwrite = false ∧
    pathExists fsSrtUp (getLocalPath cfgSub pSrtUp "/a.SRT") = true ∧
    (fsStatD fsSrtUp (getLocalPath cfgSub pSrtUp "/a.SRT")).st_size < pSrtUp.size ∧
    (filterStep cfgSub {} fsSrtUp {} pSrtUp "/a.SRT").map Prod.fst = .ok false := by
  decide

/-- Claim C6 (amended): for a non-directory entry whose exact
(case-sensitive) suffix is in the download set, with overwrite off and the
mapped local path existing, the filter returns true exactly when the local
file's mtime is older than the remote modified timestamp or its size is
smaller than the remote size; entries whose suffix matches the download set
only case-insensitively are skipped on existence alone. -/
theorem C6_staleness_check (cfg : Alist2Strm) (env : Env) (fs : FS)
    (st : TravState) (p : AlistPath) (fp : String) (t : Int)
    (hdir : p.is_dir = false)
    (hproc : pyLower p.suffix ∈ cfg.process_file_exts)
    (hpe : env.pathError p fp = false)
    (hov : cfg.overwrite = false)
    (hex : pathExists fs (getLocalPath cfg p fp) = true)
    (hdl : p.suffix ∈ cfg.download_exts)
    (hts : pyFromIso p.modified = some t) :
    filterStep cfg env fs st p fp =
      .ok ((decide ((fsStatD fs (getLocalPath cfg p fp)).st_mtime < t) ||
            decide ((fsStatD fs (getLocalPath cfg p fp)).st_size < p.size)),
           recordState cfg st p fp) := by
  unfold filterStep
  rw [if_neg (by simp [hdir]), if_neg (by simp [hproc]), if_neg (by simp [hpe])]
  have hcond : (!cfg.overwrite && pathExists fs (getLocalPath cfg p fp)) = true := by
    rw [hov, hex]
    rfl
  simp only [hcond, if_true, hdl, if_pos]
  unfold reprocessDecision AlistPath.modifiedTimestamp
  rw [hts]
  simp only [recordState]
  by_cases h1 : (fsStatD fs (getLocalPath cfg p fp)).st_mtime < t
  · simp [h1]
  · by_cases h2 : (fsStatD fs (getLocalPath cfg p fp)).st_size < p.size
    · simp [h1, h2]
    · simp [h1, h2]

/-- Witness for C6: a lowercase subtitle entry with remote size 500 over a
local 200-byte copy is reprocessed. -/
theorem C6_staleness_check_witness :
    pyFromIso pSrtOld.modified = some 72750355200 ∧
    filterStep cfgSub {} fsSrt {} pSrtOld "/a.srt" =
      .ok ((decide ((fsStatD fsSrt (getLocalPath cfgSub pSrtOld "/a.srt")).st_mtime <
              (72750355200 : Int)) ||
            decide ((fsStatD fsSrt (getLocalPath cfgSub pSrtOld "/a.srt")).st_size <
              pSrtOld.size)),
           recordState cfgSub {} pSrtOld "/a.srt") :=
  ⟨by decide,
   C6_staleness_check cfgSub {} fsSrt {} pSrtOld "/a.srt" 72750355200
     (by decide) (by decide) (by decide) (by decide) (by decide) (by decide) (by decide)⟩

/-- Claim C7: the path mapper computes, in flatten mode, the target root
joined with the entry name, and in hierarchical mode the target root joined
with the full remote path after stripping the remote-root prefix and a
leading separator, replacing a (case-insensitively) media suffix by
`.strm` — i.e. it coincides with the mapping the spec describes whenever
the full path carries the remote root as a prefix. -/
theorem C7_path_mapper (cfg : Alist2Strm) (p : AlistPath) (fp : String)
    (hpre : cfg.source_dir.data.isPrefixOf fp.data = true) (hne : fp ≠ "") :
    getLocalPath cfg p fp = specMapPath cfg p fp := by
  have hrepl : pyReplaceFirst fp cfg.source_dir = strDropChars fp cfg.source_dir.length := by
    unfold pyReplaceFirst strDropChars
    rw [removeFirstOcc_drop _ _ hpre]
    rfl
  unfold getLocalPath specMapPath
  by_cases hf : cfg.flatten_mode = true
  · simp [hf]
  · simp only [Bool.not_eq_true] at hf
    simp [hf, hne, hrepl]

/-- Witness for C7: a concrete media path under the remote root `/mov`. -/
theorem C7_path_mapper_witness :
    ("/mov" : String).data.isPrefixOf ("/mov/a.mkv" : String).data = true ∧
    getLocalPath { source_dir := "/mov", target_dir := ["t"] } { name := "a.mkv" }
        "/mov/a.mkv" =
      specMapPath { source_dir := "/mov", target_dir := ["t"] } { name := "a.mkv" }
        "/mov/a.mkv" :=
  ⟨by decide,
   C7_path_mapper { source_dir := "/mov", target_dir := ["t"] } { name := "a.mkv" }
     "/mov/a.mkv" (by decide) (by decide)⟩

/-- Claim C8: a non-directory entry passing the extension check whose local
path construction succeeds always has its local path recorded in
`processed_local_paths` before the filter returns, whatever the decision;
and the set only ever grows across the run's steps (it starts empty). -/
theorem C8_touched_insertion :
    (∀ (cfg : Alist2Strm) (env : Env) (fs : FS) (st : TravState) (p : AlistPath)
       (fp : String) (b : Bool) (st' : TravState),
       p.is_dir = false → pyLower p.suffix ∈ cfg.process_file_exts →
       env.pathError p fp = false →
       filterStep cfg env fs st p fp = .ok (b, st') →
       getLocalPath cfg p fp ∈ st'.processed ∧ st.processed ⊆ st'.processed)
    ∧ (∀ (cfg : Alist2Strm) (env : Env) (fs : FS) (det : Bool) (st : TravState)
         (pr : AlistPath × String) (st' : TravState),
         travStep cfg env fs det st pr = .ok st' → st.processed ⊆ st'.processed) := by
  constructor
  · intro cfg env fs st p fp b st' hdir hproc hpe h
    have hrec := filterStep_records cfg env fs st p fp b st' hdir hproc hpe h
    subst hrec
    constructor
    · unfold recordState
      simp only []
      split
      · rename_i hmem
        exact hmem
      · exact List.mem_cons_self _ _
    · exact filterStep_processed_mono cfg env fs st p fp b _ h
  · exact fun cfg env fs det st pr st' h =>
      travStep_processed_mono cfg env fs det st pr st' h

/-- Witness for C8: a concrete filtered subtitle entry records its local
path whether or not it is ultimately processed, and a concrete traversal
step only grows the set. -/
theorem C8_touched_insertion_witness :
    (getLocalPath cfgSub { name := "a.srt" } "/a.srt" ∈ stSrtF.processed ∧
     ({} : TravState).processed ⊆ stSrtF.processed) ∧
    ({} : TravState).processed ⊆ stSrt.processed :=
  ⟨by
      have h := C8_touched_insertion.1 cfgSub {} {} {} { name := "a.srt" } "/a.srt"
        true stSrtF (by decide) (by decide) (by decide) (by decide)
      exact h,
   C8_touched_insertion.2 cfgSub {} {} false {} ({ name := "a.srt" }, "/a.srt") stSrt
     (by decide)⟩

/-- Claim C9, counterexample: with `other_ext` putting `.mp4` into the
download set and mode `RawURL`, a media entry mapping to an existing
pointer file with overwrite off is NOT skipped on existence alone — the
staleness check runs, the filter accepts it and a remote detail call is
issued for that entry. -/
theorem C9_counterexample :
    pyLower pMp4Mod.suffix ∈ VIDEO_EXTS ∧
    cfgRaw.overwrite = false ∧
    pathExists fsStrm (getLocalPath cfgRaw pMp4Mod "/a.mp4") = true ∧
    (runTraverse cfgRaw {} fsStrm treeMp4Mod).map
      (fun st => decide (Effect.detailCall "/a.mp4" ∈ st.effects)) = .ok true := by
  decide

/-- Claim C9 (amended): a media entry whose exact suffix is NOT in the
download set, with overwrite off and its mapped pointer file existing, is
rejected by the filter on existence alone: the single-entry run records the
local path, creates no task, issues no detail call and performs no write or
download. -/
theorem C9_pointer_skip (cfg : Alist2Strm) (env : Env) (fs : FS) (p : AlistPath)
    (cs : List REntry) (σ : Nat → Nat)
    (hdir : p.is_dir = false)
    (_hmedia : pyLower p.suffix ∈ VIDEO_EXTS)
    (hproc : pyLower p.suffix ∈ cfg.process_file_exts)
    (hnd : p.suffix ∉ cfg.download_exts)
    (hov : cfg.overwrite = false)
    (hpe : env.pathError p (childFullPath cfg.source_dir p.name) = false)
    (hex : pathExists fs (getLocalPath cfg p (childFullPath cfg.source_dir p.name)) = true) :
    runTraverse cfg env fs [REntry.node p cs] =
      .ok { processed := [getLocalPath cfg p (childFullPath cfg.source_dir p.name)],
            timeline := [childFullPath cfg.source_dir p.name],
            effects := [], dispatches := [] } ∧
    runWith cfg env fs [REntry.node p cs] σ = .ok [] := by
  have hcond : (!cfg.overwrite && pathExists fs
      (getLocalPath cfg p (childFullPath cfg.source_dir p.name))) = true := by
    rw [hov, hex]
    rfl
  have hf : filterStep cfg env fs {} p (childFullPath cfg.source_dir p.name) =
      .ok (false, { processed := [getLocalPath cfg p (childFullPath cfg.source_dir p.name)],
                    timeline := [childFullPath cfg.source_dir p.name],
                    effects := [], dispatches := [] }) := by
    unfold filterStep
    rw [if_neg (by simp [hdir]), if_neg (by simp [hproc]), if_neg (by simp [hpe])]
    simp only [hcond, if_true, if_neg hnd]
    simp [List.not_mem_nil]
  have hvis : visitOrder [REntry.node p cs] cfg.source_dir =
      [(p, childFullPath cfg.source_dir p.name)] := by
    simp [visitOrder, visitEntry, hdir]
  have ht : runTraverse cfg env fs [REntry.node p cs] =
      .ok { processed := [getLocalPath cfg p (childFullPath cfg.source_dir p.name)],
            timeline := [childFullPath cfg.source_dir p.name],
            effects := [], dispatches := [] } := by
    unfold runTraverse
    rw [hvis]
    simp only [List.foldlM_cons, List.foldlM_nil, Bind.bind]
    simp only [travStep, hf, Bind.bind, Except.bind]
    simp [pure, Except.pure]
  refine ⟨ht, ?_⟩
  simp only [runWith, ht, Bind.bind, Except.bind, runTasks, pure, Except.pure]
  simp [runTasks]

/-- Witness for C9: a single `a.mp4` over an existing `t/a.strm` is skipped
with no task, no detail call and no write. -/
theorem C9_pointer_skip_witness :
    runTraverse cfgHier {} fsStrm [REntry.node pMp4 []] =
      .ok { processed := [getLocalPath cfgHier pMp4 (childFullPath cfgHier.source_dir pMp4.name)],
            timeline := [childFullPath cfgHier.source_dir pMp4.name],
            effects := [], dispatches := [] } ∧
    runWith cfgHier {} fsStrm [REntry.node pMp4 []] (fun _ => 0) = .ok [] :=
  C9_pointer_skip cfgHier {} fsStrm pMp4 [] (fun _ => 0)
    (by decide) (by decide) (by decide) (by decide) (by decide) (by decide) (by decide)

/-- Claim C10: a downloadable entry with overwrite off and an existing
local copy whose `modified` string is empty or not ISO-8601 makes the
filter's mtime comparison raise `ValueError`; the filter's handler catches
only `OSError`, so the exception escapes, the traversal stops and the whole
run aborts with that error. -/
theorem C10_bad_timestamp_aborts (cfg : Alist2Strm) (env : Env) (fs : FS)
    (p : AlistPath) (cs : List REntry) (σ : Nat → Nat)
    (hdir : p.is_dir = false)
    (hproc : pyLower p.suffix ∈ cfg.process_file_exts)
    (hdl : p.suffix ∈ cfg.download_exts)
    (hov : cfg.overwrite = false)
    (hpe : env.pathError p (childFullPath cfg.source_dir p.name) = false)
    (hex : pathExists fs (getLocalPath cfg p (childFullPath cfg.source_dir p.name)) = true)
    (hbad : pyFromIso p.modified = none) :
    filterStep cfg env fs {} p (childFullPath cfg.source_dir p.name) =
      .error PyErr.valueError ∧
    runTraverse cfg env fs [REntry.node p cs] = .error PyErr.valueError ∧
    runWith cfg env fs [REntry.node p cs] σ = .error PyErr.valueError := by
  have hcond : (!cfg.overwrite && pathExists fs
      (getLocalPath cfg p (childFullPath cfg.source_dir p.name))) = true := by
    rw [hov, hex]
    rfl
  have hf : filterStep cfg env fs {} p (childFullPath cfg.source_dir p.name) =
      .error PyErr.valueError := by
    unfold filterStep
    rw [if_neg (by simp [hdir]), if_neg (by simp [hproc]), if_neg (by simp [hpe])]
    simp only [hcond, if_true, hdl, if_pos]
    unfold reprocessDecision AlistPath.modifiedTimestamp
    rw [hbad]
  have hvis : visitOrder [REntry.node p cs] cfg.source_dir =
      [(p, childFullPath cfg.source_dir p.name)] := by
    simp [visitOrder, visitEntry, hdir]
  have ht : runTraverse cfg env fs [REntry.node p cs] = .error PyErr.valueError := by
    unfold runTraverse
    rw [hvis]
    simp only [List.foldlM_cons, List.foldlM_nil, Bind.bind]
    simp only [travStep, hf, Bind.bind, Except.bind]
  refine ⟨hf, ht, ?_⟩
  simp only [runWith, ht, Bind.bind, Except.bind]

/-- Witness for C10: a subtitle entry with `modified = ""` over an existing
local copy aborts the whole run with `ValueError`. -/
theorem C10_bad_timestamp_aborts_witness :
    filterStep cfgSub {} fsSrt {} pSrtBad (childFullPath cfgSub.source_dir pSrtBad.name) =
      .error PyErr.valueError ∧
    runTraverse cfgSub {} fsSrt treeSrtBad = .error PyErr.valueError ∧
    runWith cfgSub {} fsSrt treeSrtBad (fun _ => 0) = .error PyErr.valueError := by
  have h := C10_bad_timestamp_aborts cfgSub {} fsSrt pSrtBad [] (fun _ => 0)
    (by decide) (by decide) (by decide) (by decide) (by decide) (by decide) (by decide)
  exact h

end AutoFilm
